import Mathlib

/-!
Verification of the KataGo contribute-engine session manager
(`katrain/core/contribute_engine.py`): move-tree synchronization,
the session store mutated by the stdout reader, the buffer curator
(`advance_showing_game` / `game_ended`), and process-death
classification (`check_alive`).

Helpers of `BaseGame` that the engine calls but that are outside the
modelled sources (`sync_branch`, `play`, `redo`, `end_result`,
`next_player`, `nodes_in_tree`) are modelled from the specification's
description of the Move-Tree Synchronizer and Buffer Curator; each such
definition carries a doc comment starting `Modelled from the spec:`.
Timestamps are rationals (Python `time.time()` floats); each curator
invocation reads a single time value `now`.
-/

set_option autoImplicit false

namespace ContributeEngine

/-- A player colour, `B` or `W`. -/
inductive Player where
  | black
  | white
deriving DecidableEq

/-- A move: a player plus an optional GTP coordinate; `none` is a pass
(`Move(None, player=...)` in the source). -/
structure Move where
  player : Player
  coord : Option String
deriving DecidableEq

/-- Modelled from the spec: `Move.from_gtp` (sgf_parser, outside the modelled
sources) turns a GTP coordinate string into a move; the string "pass" has no
coordinate. -/
def Move.from_gtp (pl : Player) (s : String) : Move :=
  if s = "pass" then ⟨pl, none⟩ else ⟨pl, some s⟩

/-- The analysis payload attached to a node: the engine's candidate move
strings in rank order (rank 0 first), as consumed by `candidate_moves`. -/
abbrev Analysis := List String

/-- A node of a session's move tree: the move that produced it (none at the
root), the optional attached analysis, and the ordered children. -/
inductive KNode where
  | mk (move : Option Move) (analysis : Option Analysis) (children : List KNode)

/-- The move that produced this node. -/
def KNode.move : KNode → Option Move
  | .mk m _ _ => m

/-- The analysis attached to this node, if any. -/
def KNode.analysis : KNode → Option Analysis
  | .mk _ a _ => a

/-- The ordered children of this node. -/
def KNode.children : KNode → List KNode
  | .mk _ _ c => c

@[simp] theorem KNode.move_mk (m : Option Move) (a : Option Analysis) (c : List KNode) :
    (KNode.mk m a c).move = m := rfl

@[simp] theorem KNode.analysis_mk (m : Option Move) (a : Option Analysis) (c : List KNode) :
    (KNode.mk m a c).analysis = a := rfl

@[simp] theorem KNode.children_mk (m : Option Move) (a : Option Analysis) (c : List KNode) :
    (KNode.mk m a c).children = c := rfl

/-- A fresh root node: no move, no analysis, no children. -/
def emptyNode : KNode := .mk none none []

/-- Child `i` of a children list (total, with a junk default for
out-of-range indices; all uses are guarded by bounds). -/
def getChild (cs : List KNode) (i : Nat) : KNode := cs.getD i emptyNode

/-- Index of the first child whose move equals `m`, if any. -/
def findChildIdx (m : Move) : List KNode → Option Nat
  | [] => none
  | c :: cs => if c.move = some m then some 0 else (findChildIdx m cs).map (· + 1)

/-- Modelled from the spec: `BaseGame.sync_branch` (outside the modelled
sources) replays the authoritative move list from the root: for each move
already present descend into the matching child, for a move not present
append a new child node; returns the resulting tree together with the
child-index path of the node reached. -/
def sync_branch : List Move → KNode → KNode × List Nat
  | [], t => (t, [])
  | m :: rest, t =>
    match findChildIdx m t.children with
    | some i =>
      let r := sync_branch rest (getChild t.children i)
      (.mk t.move t.analysis (t.children.set i r.1), i :: r.2)
    | none =>
      let r := sync_branch rest (.mk (some m) none [])
      (.mk t.move t.analysis (t.children ++ [r.1]), t.children.length :: r.2)

/-- Equation lemma for `sync_branch` on a nonempty move list. -/
theorem sync_branch_cons (m : Move) (rest : List Move) (t : KNode) :
    sync_branch (m :: rest) t =
      match findChildIdx m t.children with
      | some i =>
        (.mk t.move t.analysis (t.children.set i (sync_branch rest (getChild t.children i)).1),
          i :: (sync_branch rest (getChild t.children i)).2)
      | none =>
        (.mk t.move t.analysis (t.children ++ [(sync_branch rest (.mk (some m) none [])).1]),
          t.children.length :: (sync_branch rest (.mk (some m) none [])).2) := rfl

theorem sync_branch_move (ms : List Move) (t : KNode) :
    (sync_branch ms t).1.move = t.move := by
  cases ms with
  | nil => rfl
  | cons m rest =>
    cases h : findChildIdx m t.children with
    | none => simp [sync_branch_cons, h]
    | some i => simp [sync_branch_cons, h]

theorem findChildIdx_lt (m : Move) :
    ∀ (cs : List KNode) (i : Nat), findChildIdx m cs = some i → i < cs.length := by
  intro cs
  induction cs with
  | nil => intro i h; simp [findChildIdx] at h
  | cons c cs ih =>
    intro i h
    simp only [findChildIdx] at h
    split at h
    · injection h with h
      subst h
      simp only [List.length_cons]
      omega
    · rw [Option.map_eq_some'] at h
      obtain ⟨j, hj, rfl⟩ := h
      have := ih j hj
      simp only [List.length_cons]
      omega

theorem findChildIdx_move (m : Move) :
    ∀ (cs : List KNode) (i : Nat), findChildIdx m cs = some i →
      (getChild cs i).move = some m := by
  intro cs
  induction cs with
  | nil => intro i h; simp [findChildIdx] at h
  | cons c cs ih =>
    intro i h
    simp only [findChildIdx] at h
    split at h
    case isTrue hc =>
      injection h with h
      subst h
      simpa [getChild] using hc
    case isFalse hc =>
      rw [Option.map_eq_some'] at h
      obtain ⟨j, hj, rfl⟩ := h
      simpa [getChild] using ih j hj

theorem findChildIdx_set (m : Move) :
    ∀ (cs : List KNode) (i : Nat) (c' : KNode),
      findChildIdx m cs = some i → c'.move = some m →
      findChildIdx m (cs.set i c') = some i := by
  intro cs
  induction cs with
  | nil => intro i c' h _; simp [findChildIdx] at h
  | cons c cs ih =>
    intro i c' h hm
    simp only [findChildIdx] at h
    split at h
    case isTrue hc =>
      injection h with h
      subst h
      simp [List.set, findChildIdx, hm]
    case isFalse hc =>
      rw [Option.map_eq_some'] at h
      obtain ⟨j, hj, rfl⟩ := h
      show findChildIdx m ((c :: cs).set (j + 1) c') = some (j + 1)
      simp only [List.set]
      simp only [findChildIdx, if_neg hc]
      rw [ih j c' hj hm]
      rfl

theorem findChildIdx_append (m : Move) :
    ∀ (cs : List KNode) (c' : KNode),
      findChildIdx m cs = none → c'.move = some m →
      findChildIdx m (cs ++ [c']) = some cs.length := by
  intro cs
  induction cs with
  | nil => intro c' _ hm; simp [findChildIdx, hm]
  | cons c cs ih =>
    intro c' h hm
    simp only [findChildIdx] at h
    have hc : ¬ c.move = some m := by
      intro hcm
      rw [if_pos hcm] at h
      cases h
    rw [if_neg hc] at h
    have h' : findChildIdx m cs = none := by
      cases hfind : findChildIdx m cs
      · rfl
      · rw [hfind] at h; cases h
    rw [List.cons_append]
    simp only [findChildIdx, if_neg hc]
    rw [ih c' h' hm]
    rfl

theorem getChild_set (cs : List KNode) (i : Nat) (c' : KNode) (h : i < cs.length) :
    getChild (cs.set i c') i = c' := by
  induction cs generalizing i with
  | nil => simp at h
  | cons c cs ih =>
    cases i with
    | zero => rfl
    | succ i' =>
      simp at h
      exact ih i' (by omega)

theorem getChild_append (cs : List KNode) (c' : KNode) :
    getChild (cs ++ [c']) cs.length = c' := by
  induction cs with
  | nil => rfl
  | cons c cs ih => exact ih

theorem set_append_last (cs : List KNode) (c1 c2 : KNode) :
    (cs ++ [c1]).set cs.length c2 = cs ++ [c2] := by
  induction cs with
  | nil => rfl
  | cons c cs ih => simp [List.set, ih]

/-- Synchronizing a prefix first never changes the outcome of a later
synchronization of a longer list: replaying `p ++ q` against the tree
obtained by replaying `p` gives exactly the tree and path that replaying
`p ++ q` against the original tree gives. -/
theorem sync_branch_absorb (q p : List Move) :
    ∀ t : KNode, sync_branch (p ++ q) (sync_branch p t).1 = sync_branch (p ++ q) t := by
  induction p with
  | nil => intro t; rfl
  | cons m p' ih =>
    intro t
    cases hf : findChildIdx m t.children with
    | some i =>
      have hlt := findChildIdx_lt m t.children i hf
      have hmv : (sync_branch p' (getChild t.children i)).1.move = some m := by
        rw [sync_branch_move]; exact findChildIdx_move m t.children i hf
      have hf2 : findChildIdx m ((t.children.set i (sync_branch p' (getChild t.children i)).1)) = some i :=
        findChildIdx_set m t.children i _ hf hmv
      simp only [List.cons_append, sync_branch_cons, hf, KNode.children_mk, KNode.move_mk,
        KNode.analysis_mk, hf2]
      rw [getChild_set _ _ _ hlt]
      rw [ih (getChild t.children i)]
      rw [List.set_set]
    | none =>
      have hmv : (sync_branch p' (.mk (some m) none [])).1.move = some m := by
        rw [sync_branch_move]; rfl
      have hf2 : findChildIdx m (t.children ++ [(sync_branch p' (.mk (some m) none [])).1]) = some t.children.length :=
        findChildIdx_append m t.children _ hf hmv
      simp only [List.cons_append, sync_branch_cons, hf, KNode.children_mk, KNode.move_mk,
        KNode.analysis_mk, hf2]
      rw [getChild_append]
      rw [ih (.mk (some m) none [])]
      rw [set_append_last]

/-- C1: synchronization is idempotent and prefix-tolerant: replaying the
same move list twice yields the tree (and reached path) of replaying it
once, and replaying `[m1]` then `[m1, m2]` yields the same tree as
replaying `[m1, m2]` directly. -/
theorem sync_branch_idempotent_and_prefix_tolerant :
    (∀ (ms : List Move) (t : KNode),
      sync_branch ms (sync_branch ms t).1 = sync_branch ms t) ∧
    (∀ (m1 m2 : Move) (t : KNode),
      (sync_branch [m1, m2] (sync_branch [m1] t).1).1 = (sync_branch [m1, m2] t).1) := by
  constructor
  · intro ms t
    have := sync_branch_absorb [] ms t
    simpa using this
  · intro m1 m2 t
    have := congrArg Prod.fst (sync_branch_absorb [m2] [m1] t)
    simpa using this

/-- Attach an analysis payload to the node at child-index path `path`
(overwriting any previous attachment), models `last_node.set_analysis`. -/
def setAnalysisAt : KNode → List Nat → Analysis → KNode
  | t, [], a => .mk t.move (some a) t.children
  | t, i :: rest, a =>
    .mk t.move t.analysis (t.children.set i (setAnalysisAt (getChild t.children i) rest a))

/-- One session's game: the move-tree root and the current-node pointer,
held as the child-index path from the root. -/
structure Game where
  root : KNode
  current : List Nat

/-- The whole mutable state of `KataGoContributeEngine` touched by the
stdout reader and `advance_showing_game`: the active-games map (a Python
dict, modelled as a key-unique association list in insertion order), the
finished-games set, the displayed-game pointer and the last-advance
timestamp. -/
structure EngineState where
  active_games : List (String × Game)
  finished_games : List String
  showing_game : Option String
  last_advance : Rat

/-- `active_games.get(gid)`: first value bound to the key, if any. -/
def lookupGame : List (String × Game) → String → Option Game
  | [], _ => none
  | kg :: rest, gid => if kg.1 = gid then some kg.2 else lookupGame rest gid

/-- `active_games[gid] = g`: replace the binding if the key is present,
append it otherwise (Python dict assignment keeps insertion order). -/
def updateGame : List (String × Game) → String → Game → List (String × Game)
  | [], gid, g => [(gid, g)]
  | kg :: rest, gid, g => if kg.1 = gid then (gid, g) :: rest else kg :: updateGame rest gid g

/-- `del active_games[gid]`: drop the binding of the key. -/
def removeGame : List (String × Game) → String → List (String × Game)
  | [], _ => []
  | kg :: rest, gid => if kg.1 = gid then rest else kg :: removeGame rest gid

/-- `finished_games.add(gid)`: set insertion. -/
def addFinished (fin : List String) (gid : String) : List String :=
  if gid ∈ fin then fin else fin ++ [gid]

/-- A structured stdout record carrying a `gameId`: the authoritative move
list (`(player, gtp-coordinate)` pairs, the whole game so far) and the
analysis payload attached to the reached node.  Root properties built for a
new game (board size, komi, rules, player names) are not modelled: no claim
mentions them. -/
structure Record where
  gameId : String
  moves : List (Player × String)
  candidates : Analysis

/-- The move list of a record decoded as in
`[Move.from_gtp(coord, pl) for pl, coord in analysis["moves"]]`. -/
def record_moves (r : Record) : List Move :=
  r.moves.map fun pc => Move.from_gtp pc.1 pc.2

/-- The game built for an unseen session id: a fresh root, the record's
moves replayed into it, the analysis attached to the reached node, and the
current-node pointer set to that node (`set_current_node(last_node)`). -/
def build_new_game (r : Record) : Game :=
  let sb := sync_branch (record_moves r) emptyNode
  ⟨setAnalysisAt sb.1 sb.2 r.candidates, sb.2⟩

/-- Processing of one structured record with a `gameId` by the stdout
reader (`_read_stdout_thread`, lines 167-201): records for finished games
are discarded; an unseen id constructs a new game; the record's move list
is replayed via `sync_branch` and the analysis attached to the reached
node; only a newly constructed game has its current-node pointer set. -/
def processRecord (s : EngineState) (r : Record) : EngineState :=
  if r.gameId ∈ s.finished_games then s
  else
    match lookupGame s.active_games r.gameId with
    | some g =>
      let sb := sync_branch (record_moves r) g.root
      let g' : Game := ⟨setAnalysisAt sb.1 sb.2 r.candidates, g.current⟩
      { s with active_games := updateGame s.active_games r.gameId g' }
    | none =>
      { s with active_games := updateGame s.active_games r.gameId (build_new_game r) }

theorem lookupGame_updateGame_self (ag : List (String × Game)) (gid : String) (g : Game) :
    lookupGame (updateGame ag gid g) gid = some g := by
  induction ag with
  | nil => simp [updateGame, lookupGame]
  | cons kg rest ih =>
    by_cases h : kg.1 = gid
    · simp [updateGame, lookupGame, h]
    · simp [updateGame, lookupGame, h, ih]

/-- C2: a record whose session id is already in the finished set leaves the
whole engine state (active map included) unchanged. -/
theorem finished_record_discarded (s : EngineState) (r : Record)
    (h : r.gameId ∈ s.finished_games) : processRecord s r = s := by
  simp [processRecord, h]

theorem finished_record_discarded_witness :
    "g1" ∈ (⟨[], ["g1"], none, 0⟩ : EngineState).finished_games ∧
      processRecord ⟨[], ["g1"], none, 0⟩ ⟨"g1", [], []⟩ = ⟨[], ["g1"], none, 0⟩ := by
  refine ⟨by decide, finished_record_discarded _ _ (by decide)⟩

/-- C7: synchronization repositions the current-node pointer only for new
sessions: a record for an unseen id installs the freshly built game, whose
current node is the path reached by replaying the record's move list from
a fresh root, while a record for an existing session leaves that session's
current-node pointer exactly where it was. -/
theorem sync_moves_pointer_only_for_new_games (s : EngineState) (r : Record)
    (hfin : r.gameId ∉ s.finished_games) :
    (lookupGame s.active_games r.gameId = none →
      lookupGame (processRecord s r).active_games r.gameId = some (build_new_game r) ∧
        (build_new_game r).current = (sync_branch (record_moves r) emptyNode).2) ∧
    (∀ g : Game, lookupGame s.active_games r.gameId = some g →
      (lookupGame (processRecord s r).active_games r.gameId).map Game.current = some g.current) := by
  constructor
  · intro hnone
    refine ⟨?_, rfl⟩
    simp [processRecord, hfin, hnone, lookupGame_updateGame_self]
  · intro g hg
    simp [processRecord, hfin, hg, lookupGame_updateGame_self]

theorem sync_moves_pointer_only_for_new_games_witness :
    ("g1" ∉ (⟨[], [], none, 0⟩ : EngineState).finished_games) ∧
      (lookupGame (processRecord ⟨[], [], none, 0⟩ ⟨"g1", [(Player.black, "D4")], ["Q16"]⟩).active_games "g1"
        = some (build_new_game ⟨"g1", [(Player.black, "D4")], ["Q16"]⟩)) := by
  have h := sync_moves_pointer_only_for_new_games ⟨[], [], none, 0⟩
    ⟨"g1", [(Player.black, "D4")], ["Q16"]⟩ (by decide)
  exact ⟨by decide, (h.1 rfl).1⟩

/-- The message carried by the `EngineDiedException` raised from
`check_alive`: either the i18n key "Engine missing DLL", or the i18n key
"Engine died unexpectedly" formatted with the accumulated `os_error`
text. -/
inductive DiedMessage where
  | missingDLL
  | diedUnexpectedly (err : String)
deriving DecidableEq

/-- The observable outcome of one `check_alive` call: its return value,
the exception raised (if any) with its message, whether an error-level log
line was emitted, and whether `self.katago_process` is still set
afterwards. -/
structure AliveResult where
  ok : Bool
  raised : Option DiedMessage
  logged_error : Bool
  process_after : Bool
deriving DecidableEq

/-- The distinguished Windows exit code classified as a missing DLL. -/
def MISSING_DLL_CODE : Int := 3221225781

/-- Rendering of `f"status {code}"` appended to `os_error`; `code` is the
second `poll()` result (an exit code, or Python `None` if the process
revived between the two polls). -/
def status_text : Option Int → String
  | some c => "status " ++ toString c
  | none => "status None"

/-- `check_alive` (lines 116-132).  Inputs: whether `self.katago_process`
is set, the subprocess `poll()` result (`none` while still running), the
`os_error` argument and the `exception_if_dead` flag.  A set process with
a running poll is alive; otherwise, when an exception is requested, the
exit code is classified (`MISSING_DLL_CODE` yields the missing-DLL
message, anything else the generic message carrying `status {code}`), the
error is logged unless the code is the deliberate-exit code 1, the process
reference is cleared, and the engine-died failure is raised. -/
def check_alive (process_present : Bool) (poll : Option Int) (os_error : String)
    (exception_if_dead : Bool) : AliveResult :=
  let ok := process_present && poll.isNone
  if ok = false ∧ exception_if_dead = true then
    if process_present then
      let code := poll
      let died_msg :=
        if code = some MISSING_DLL_CODE then DiedMessage.missingDLL
        else DiedMessage.diedUnexpectedly (os_error ++ status_text code)
      ⟨ok, some died_msg, decide (code ≠ some 1), false⟩
    else
      ⟨ok, some (DiedMessage.diedUnexpectedly os_error), false, false⟩
  else
    ⟨ok, none, false, process_present⟩

/-- C3: on a dead process with `exception_if_dead = true`, `check_alive`
always raises and always leaves the process reference cleared; exit code
3221225781 raises the missing-DLL message while any other code raises the
generic engine-died message carrying `status {code}`; the error log is
emitted exactly when the code is not the deliberate-exit code 1; a cleared
process reference likewise raises the generic message without logging. -/
theorem check_alive_dead_classification (code : Int) (os_error : String) (poll : Option Int) :
    (check_alive true (some code) os_error true =
      ⟨false,
        some (if code = MISSING_DLL_CODE then DiedMessage.missingDLL
          else DiedMessage.diedUnexpectedly (os_error ++ "status " ++ toString code)),
        decide (code ≠ 1), false⟩) ∧
    (check_alive false poll os_error true =
      ⟨false, some (DiedMessage.diedUnexpectedly os_error), false, false⟩) := by
  constructor
  · by_cases h : code = MISSING_DLL_CODE
    · simp [check_alive, h, status_text]
    · have h' : ¬ (some code = some MISSING_DLL_CODE) := by simpa using h
      simp [check_alive, h, h', status_text, String.append_assoc]
  · simp [check_alive]

/-- `node.is_pass`: the node was produced by a move with no coordinate. -/
def KNode.is_pass (n : KNode) : Bool :=
  match n.move with
  | some m => m.coord.isNone
  | none => false

/-- `node.analysis_exists`: an analysis payload is attached. -/
def KNode.analysis_exists (n : KNode) : Bool := n.analysis.isSome

/-- `node.candidate_moves`: the rank-ordered candidate move strings of the
attached analysis (empty when none is attached). -/
def KNode.candidate_moves (n : KNode) : List String := n.analysis.getD []

/-- The node of a tree at a child-index path. -/
def nodeAt : KNode → List Nat → KNode
  | t, [] => t
  | t, i :: rest => nodeAt (getChild t.children i) rest

/-- `game.current_node`. -/
def Game.current_node (g : Game) : KNode := nodeAt g.root g.current

/-- Whether a child-index path denotes a node actually present in the
tree (the data-model invariant on the current-node pointer). -/
def validPath : KNode → List Nat → Bool
  | _, [] => true
  | t, i :: rest => decide (i < t.children.length) && validPath (getChild t.children i) rest

/-- Modelled from the spec: `current_node.next_player` (game module,
outside the modelled sources): the colour opposite the current node's
move, black at the root. -/
def Game.next_player (g : Game) : Player :=
  match g.current_node.move with
  | some m => match m.player with | .black => .white | .white => .black
  | none => .black

/-- Append a child node under the node at `path`. -/
def appendChildAt : KNode → List Nat → KNode → KNode
  | t, [], c => .mk t.move t.analysis (t.children ++ [c])
  | t, i :: rest, c =>
    .mk t.move t.analysis (t.children.set i (appendChildAt (getChild t.children i) rest c))

/-- Modelled from the spec: `game.play(move)` (outside the modelled
sources) applies a move at the current node: a new node for the move is
appended below the current node and the current-node pointer moves to
it. -/
def Game.play (g : Game) (m : Move) : Game :=
  ⟨appendChildAt g.root g.current (.mk (some m) none []),
    g.current ++ [g.current_node.children.length]⟩

/-- Modelled from the spec: `game.redo(1)` (outside the modelled sources)
advances the current-node pointer one step along the existing tree. -/
def Game.redo (g : Game) : Game := ⟨g.root, g.current ++ [0]⟩

/-- The end-of-game test of `game_ended` (lines 50-52): the current node
is a pass with analysis attached and the engine's rank-0 candidate move is
also a pass. -/
def end_condition (cn : KNode) : Bool :=
  cn.is_pass && cn.analysis_exists &&
    (match cn.candidate_moves with
     | [] => false
     | m0 :: _ => m0 == "pass")

/-- `game_ended` (lines 47-54): when the end condition holds a terminating
pass move is played for the next player, then the (externally computed)
end result of the possibly-extended game is returned; `end_result` is the
oracle for `game.end_result`, which lives outside the modelled sources. -/
def game_ended (end_result : Game → Option String) (g : Game) : Game × Option String :=
  let g' := if end_condition g.current_node then g.play ⟨g.next_player, none⟩ else g
  (g', end_result g')

/-- `MAX_BUFFER_GAMES`. -/
def MAX_BUFFER_GAMES : Nat := 8

/-- `MOVE_SPEED` (seconds). -/
def MOVE_SPEED : Rat := 1 / 2

/-- `SHOW_RESULT_TIME` (seconds). -/
def SHOW_RESULT_TIME : Rat := 5

/-- `GIVE_UP_AFTER` (seconds). -/
def GIVE_UP_AFTER : Rat := 30

/-- The external collaborators `advance_showing_game` consults: the
end-result computation of the game module, the `random.choice` pick among
the active keys, and the "most recently added tree node is a pass" test
(`game.root.nodes_in_tree[-1].is_pass`) — all outside the modelled
sources. -/
structure CuratorEnv where
  end_result : Game → Option String
  random_choice : List String → String
  last_node_pass : Game → Bool

/-- Selection of a new displayed game (lines 82-89): a random choice among
the active keys, overridden by the first game whose most recently added
node is a pass. -/
def pick_showing (env : CuratorEnv) (ag : List (String × Game)) : String :=
  match ag.find? (fun kg => env.last_node_pass kg.2) with
  | some kg => kg.1
  | none => env.random_choice (ag.map Prod.fst)

/-- `self.active_games.get(self.showing_game)` together with the key. -/
def current_entry (s : EngineState) : Option (String × Game) :=
  match s.showing_game with
  | none => none
  | some gid => (lookupGame s.active_games gid).map (fun g => (gid, g))

/-- `advance_showing_game` (lines 56-92), one invocation at time `now`.
With a displayed game present: run `game_ended` (whose pass-play mutates
the stored game); on an available end result add the id to the finished
set and, once more than `SHOW_RESULT_TIME` has passed since the last
advance, evict the game and clear the displayed pointer; otherwise, when
the pacing interval elapsed or the buffer is over `MAX_BUFFER_GAMES`,
either redo one move (children present) or, past `GIVE_UP_AFTER`, give up
and evict.  With no displayed game: pick one if any are active. -/
def advance_showing_game (env : CuratorEnv) (now : Rat) (s : EngineState) : EngineState :=
  match current_entry s with
  | some (gid, g0) =>
    let ge := game_ended env.end_result g0
    let g1 := ge.1
    let ag1 := updateGame s.active_games gid g1
    match ge.2 with
    | some _ =>
      let fin1 := addFinished s.finished_games gid
      if now - s.last_advance > SHOW_RESULT_TIME then
        ⟨removeGame ag1 gid, fin1, none, s.last_advance⟩
      else
        ⟨ag1, fin1, s.showing_game, s.last_advance⟩
    | none =>
      if now - s.last_advance > MOVE_SPEED ∨ ag1.length > MAX_BUFFER_GAMES then
        match g1.current_node.children with
        | _ :: _ => ⟨updateGame ag1 gid g1.redo, s.finished_games, s.showing_game, now⟩
        | [] =>
          if now - s.last_advance > GIVE_UP_AFTER then
            ⟨removeGame ag1 gid, s.finished_games, none, s.last_advance⟩
          else
            ⟨ag1, s.finished_games, s.showing_game, s.last_advance⟩
      else
        ⟨ag1, s.finished_games, s.showing_game, s.last_advance⟩
  | none =>
    match s.active_games with
    | [] => s
    | _ :: _ => ⟨s.active_games, s.finished_games, some (pick_showing env s.active_games), now⟩

/-- The keys of the active-games map, in insertion order. -/
def keysOf (ag : List (String × Game)) : List String := ag.map Prod.fst

theorem lookupGame_isSome_iff (ag : List (String × Game)) (k : String) :
    (lookupGame ag k).isSome ↔ k ∈ keysOf ag := by
  induction ag with
  | nil => simp [lookupGame, keysOf]
  | cons kg rest ih =>
    by_cases h : kg.1 = k
    · simp [lookupGame, keysOf, h]
    · simp only [lookupGame, if_neg h, keysOf, List.map_cons, List.mem_cons]
      rw [ih]
      constructor
      · intro hm; exact Or.inr hm
      · intro hm
        cases hm with
        | inl he => exact absurd he.symm h
        | inr hm => exact hm

theorem mem_keysOf_updateGame (ag : List (String × Game)) (k x : String) (g : Game) :
    x ∈ keysOf (updateGame ag k g) ↔ x ∈ keysOf ag ∨ x = k := by
  induction ag with
  | nil => simp [updateGame, keysOf]
  | cons kg rest ih =>
    by_cases h : kg.1 = k
    · subst h
      simp [updateGame, keysOf]
      tauto
    · simp only [updateGame, if_neg h, keysOf, List.map_cons, List.mem_cons] at ih ⊢
      rw [ih]
      tauto

theorem nodup_keysOf_updateGame (ag : List (String × Game)) (k : String) (g : Game)
    (h : (keysOf ag).Nodup) : (keysOf (updateGame ag k g)).Nodup := by
  induction ag with
  | nil => simp [updateGame, keysOf]
  | cons kg rest ih =>
    simp only [keysOf, List.map_cons, List.nodup_cons] at h
    by_cases hk : kg.1 = k
    · subst hk
      simpa [updateGame, keysOf, List.nodup_cons] using h
    · simp only [updateGame, if_neg hk, keysOf, List.map_cons, List.nodup_cons]
      refine ⟨?_, ih h.2⟩
      intro hmem
      rw [show (List.map Prod.fst (updateGame rest k g)) = keysOf (updateGame rest k g) from rfl,
        mem_keysOf_updateGame] at hmem
      cases hmem with
      | inl hm => exact h.1 hm
      | inr he => exact hk he

theorem lookupGame_eq_none_of_not_mem (ag : List (String × Game)) (k : String)
    (h : k ∉ keysOf ag) : lookupGame ag k = none := by
  cases hl : lookupGame ag k with
  | none => rfl
  | some g =>
    exfalso
    exact h ((lookupGame_isSome_iff ag k).mp (by simp [hl]))

theorem lookupGame_removeGame_self (ag : List (String × Game)) (k : String)
    (h : (keysOf ag).Nodup) : lookupGame (removeGame ag k) k = none := by
  induction ag with
  | nil => rfl
  | cons kg rest ih =>
    simp only [keysOf, List.map_cons, List.nodup_cons] at h
    by_cases hk : kg.1 = k
    · simp only [removeGame, if_pos hk]
      apply lookupGame_eq_none_of_not_mem
      rw [← hk]
      exact h.1
    · simp only [removeGame, if_neg hk, lookupGame, if_neg hk]
      exact ih h.2

theorem updateGame_length_of_lookup (ag : List (String × Game)) (k : String) (g g' : Game)
    (h : lookupGame ag k = some g) : (updateGame ag k g').length = ag.length := by
  induction ag with
  | nil => simp [lookupGame] at h
  | cons kg rest ih =>
    by_cases hk : kg.1 = k
    · simp [updateGame, hk]
    · simp only [lookupGame, if_neg hk] at h
      simp [updateGame, if_neg hk, ih h]

theorem updateGame_length_le (ag : List (String × Game)) (k : String) (g : Game) :
    (updateGame ag k g).length ≤ ag.length + 1 := by
  induction ag with
  | nil => simp [updateGame]
  | cons kg rest ih =>
    by_cases hk : kg.1 = k
    · simp [updateGame, hk]
    · simp only [updateGame, if_neg hk, List.length_cons]
      omega

theorem removeGame_length_le (ag : List (String × Game)) (k : String) :
    (removeGame ag k).length ≤ ag.length := by
  induction ag with
  | nil => simp [removeGame]
  | cons kg rest ih =>
    by_cases hk : kg.1 = k
    · simp [removeGame, hk]
    · simp only [removeGame, if_neg hk, List.length_cons]
      omega

theorem lookupGame_isSome_updateGame (ag : List (String × Game)) (k k' : String) (g : Game)
    (h : (lookupGame ag k).isSome) : (lookupGame (updateGame ag k' g) k).isSome := by
  rw [lookupGame_isSome_iff] at h ⊢
  rw [mem_keysOf_updateGame]
  exact Or.inl h

theorem mem_addFinished_self (fin : List String) (gid : String) :
    gid ∈ addFinished fin gid := by
  by_cases h : gid ∈ fin
  · simp [addFinished, h]
  · simp [addFinished, h]

theorem nodeAt_appendChildAt (c : KNode) :
    ∀ (p : List Nat) (t : KNode), validPath t p = true →
      nodeAt (appendChildAt t p c) (p ++ [(nodeAt t p).children.length]) = c := by
  intro p
  induction p with
  | nil =>
    intro t _
    simp [appendChildAt, nodeAt, getChild_append]
  | cons i rest ih =>
    intro t hv
    simp only [validPath, Bool.and_eq_true, decide_eq_true_eq] at hv
    obtain ⟨hlt, hv2⟩ := hv
    simp only [List.cons_append, nodeAt, appendChildAt, KNode.children_mk]
    rw [getChild_set _ _ _ hlt]
    exact ih (getChild t.children i) hv2

theorem game_ended_play (er : Game → Option String) (g : Game)
    (hc : end_condition g.current_node = true) :
    (game_ended er g).1 = g.play ⟨g.next_player, none⟩ := by
  simp [game_ended, hc]

theorem game_ended_skip (er : Game → Option String) (g : Game)
    (hc : end_condition g.current_node = false) :
    (game_ended er g).1 = g := by
  simp [game_ended, hc]

theorem play_current_node (g : Game) (m : Move)
    (hvalid : validPath g.root g.current = true) :
    (g.play m).current_node = .mk (some m) none [] := by
  show nodeAt (appendChildAt g.root g.current (.mk (some m) none []))
    (g.current ++ [(nodeAt g.root g.current).children.length]) = _
  exact nodeAt_appendChildAt _ g.current g.root hvalid

theorem game_ended_leaf (er : Game → Option String) (g : Game)
    (hvalid : validPath g.root g.current = true)
    (hleaf : g.current_node.children = []) :
    ((game_ended er g).1).current_node.children = [] := by
  cases hc : end_condition g.current_node with
  | true =>
    rw [game_ended_play er g hc, play_current_node g _ hvalid]
    rfl
  | false =>
    rw [game_ended_skip er g hc]
    exact hleaf

theorem current_entry_some (s : EngineState) (gid : String) (g : Game)
    (h : current_entry s = some (gid, g)) :
    s.showing_game = some gid ∧ lookupGame s.active_games gid = some g := by
  cases hsg : s.showing_game with
  | none => simp [current_entry, hsg] at h
  | some gid2 =>
    cases hlg : lookupGame s.active_games gid2 with
    | none => simp [current_entry, hsg, hlg] at h
    | some g2 =>
      simp only [current_entry, hsg, hlg, Option.map_some', Option.some.injEq,
        Prod.mk.injEq] at h
      obtain ⟨h1, h2⟩ := h
      subst h1
      subst h2
      exact ⟨rfl, hlg⟩

/-- C4: a terminating pass is applied exactly when the current node is a
pass with analysis whose rank-0 candidate is also a pass; and with a
displayed game whose end result is then available, the invocation adds the
session id to the finished set and evicts the session from the active map
exactly when more than `SHOW_RESULT_TIME` has elapsed since the last
advance. -/
theorem end_detection_and_eviction (env : CuratorEnv) (now : Rat) (s : EngineState)
    (gid : String) (g0 : Game) (res : String)
    (hnd : (keysOf s.active_games).Nodup)
    (hshow : s.showing_game = some gid)
    (hlook : lookupGame s.active_games gid = some g0)
    (hres : (game_ended env.end_result g0).2 = some res) :
    (∀ (er : Game → Option String) (g : Game),
      ((game_ended er g).1 = g.play ⟨g.next_player, none⟩ ∧ end_condition g.current_node = true) ∨
        ((game_ended er g).1 = g ∧ end_condition g.current_node = false)) ∧
    gid ∈ (advance_showing_game env now s).finished_games ∧
    (lookupGame (advance_showing_game env now s).active_games gid = none ↔
      now - s.last_advance > SHOW_RESULT_TIME) := by
  have hce : current_entry s = some (gid, g0) := by simp [current_entry, hshow, hlook]
  refine ⟨?_, ?_⟩
  · intro er g
    cases hc : end_condition g.current_node with
    | true => exact Or.inl ⟨game_ended_play er g hc, rfl⟩
    | false => exact Or.inr ⟨game_ended_skip er g hc, rfl⟩
  by_cases ht : now - s.last_advance > SHOW_RESULT_TIME
  · simp only [advance_showing_game, hce, hres, if_pos ht]
    refine ⟨mem_addFinished_self _ _, ?_⟩
    have hnone := lookupGame_removeGame_self
      (updateGame s.active_games gid (game_ended env.end_result g0).1) gid
      (nodup_keysOf_updateGame _ _ _ hnd)
    exact ⟨fun _ => ht, fun _ => hnone⟩
  · simp only [advance_showing_game, hce, hres, if_neg ht]
    refine ⟨mem_addFinished_self _ _, ?_⟩
    constructor
    · intro hnone
      rw [lookupGame_updateGame_self] at hnone
      cases hnone
    · intro h
      exact absurd h ht

theorem end_detection_and_eviction_witness :
    ((⟨[("g1", ⟨.mk none none [.mk (some ⟨Player.black, none⟩) (some ["pass"]) []],
        [0]⟩)], [], some "g1", 0⟩ : EngineState).showing_game = some "g1") ∧
    ("g1" ∈ (advance_showing_game ⟨fun _ => some "B+R", fun l => l.headD "", fun _ => false⟩ 10
        ⟨[("g1", ⟨.mk none none [.mk (some ⟨Player.black, none⟩) (some ["pass"]) []],
          [0]⟩)], [], some "g1", 0⟩).finished_games) := by
  have h := end_detection_and_eviction
    ⟨fun _ => some "B+R", fun l => l.headD "", fun _ => false⟩ 10
    ⟨[("g1", ⟨.mk none none [.mk (some ⟨Player.black, none⟩) (some ["pass"]) []], [0]⟩)],
      [], some "g1", 0⟩
    "g1" ⟨.mk none none [.mk (some ⟨Player.black, none⟩) (some ["pass"]) []], [0]⟩ "B+R"
    (by simp [keysOf]) rfl rfl rfl
  exact ⟨rfl, h.2.1⟩

/-- C5: a displayed session whose current node has no children and whose
last advance lies more than `GIVE_UP_AFTER` in the past is evicted from
the active map by the invocation, and the displayed pointer is cleared. -/
theorem give_up_evicts_stuck_game (env : CuratorEnv) (now : Rat) (s : EngineState)
    (gid : String) (g0 : Game)
    (hnd : (keysOf s.active_games).Nodup)
    (hshow : s.showing_game = some gid)
    (hlook : lookupGame s.active_games gid = some g0)
    (hvalid : validPath g0.root g0.current = true)
    (hleaf : g0.current_node.children = [])
    (htime : now - s.last_advance > GIVE_UP_AFTER) :
    (advance_showing_game env now s).showing_game = none ∧
      lookupGame (advance_showing_game env now s).active_games gid = none := by
  have hce : current_entry s = some (gid, g0) := by simp [current_entry, hshow, hlook]
  have hleaf1 : ((game_ended env.end_result g0).1).current_node.children = [] :=
    game_ended_leaf _ _ hvalid hleaf
  have hnone := lookupGame_removeGame_self
    (updateGame s.active_games gid (game_ended env.end_result g0).1) gid
    (nodup_keysOf_updateGame _ _ _ hnd)
  have hshow5 : now - s.last_advance > SHOW_RESULT_TIME := by
    have hlt : (SHOW_RESULT_TIME : Rat) < GIVE_UP_AFTER := by
      norm_num [SHOW_RESULT_TIME, GIVE_UP_AFTER]
    linarith
  have hms : now - s.last_advance > MOVE_SPEED := by
    have hlt : (MOVE_SPEED : Rat) < GIVE_UP_AFTER := by
      norm_num [MOVE_SPEED, GIVE_UP_AFTER]
    linarith
  cases hres : (game_ended env.end_result g0).2 with
  | some res =>
    simp only [advance_showing_game, hce, hres, if_pos hshow5]
    exact ⟨trivial, hnone⟩
  | none =>
    have hdisj : now - s.last_advance > MOVE_SPEED ∨
        (updateGame s.active_games gid (game_ended env.end_result g0).1).length >
          MAX_BUFFER_GAMES := Or.inl hms
    simp only [advance_showing_game, hce, hres, if_pos hdisj, hleaf1, if_pos htime]
    exact ⟨trivial, hnone⟩

theorem give_up_evicts_stuck_game_witness :
    ((⟨[("g1", ⟨.mk none none [], []⟩)], [], some "g1", 0⟩ : EngineState).showing_game
        = some "g1") ∧
    ((advance_showing_game ⟨fun _ => none, fun l => l.headD "", fun _ => false⟩ 31
        ⟨[("g1", ⟨.mk none none [], []⟩)], [], some "g1", 0⟩).showing_game = none) := by
  have h := give_up_evicts_stuck_game
    ⟨fun _ => none, fun l => l.headD "", fun _ => false⟩ 31
    ⟨[("g1", ⟨.mk none none [], []⟩)], [], some "g1", 0⟩ "g1" ⟨.mk none none [], []⟩
    (by simp [keysOf]) rfl rfl rfl rfl
    (by norm_num [GIVE_UP_AFTER])
  exact ⟨rfl, h.1⟩

/-- C10: give-up eviction does not touch the finished set: a stuck session
(not previously finished) evicted by the give-up branch is afterwards
absent from both the active map and the finished set, and a later record
carrying its id is treated as unseen and constructs a fresh game. -/
theorem give_up_forgets_game (env : CuratorEnv) (now : Rat) (s : EngineState)
    (gid : String) (g0 : Game) (r : Record)
    (hnd : (keysOf s.active_games).Nodup)
    (hshow : s.showing_game = some gid)
    (hlook : lookupGame s.active_games gid = some g0)
    (hvalid : validPath g0.root g0.current = true)
    (hleaf : g0.current_node.children = [])
    (hstuck : (game_ended env.end_result g0).2 = none)
    (htime : now - s.last_advance > GIVE_UP_AFTER)
    (hfin : gid ∉ s.finished_games)
    (hrid : r.gameId = gid) :
    gid ∉ (advance_showing_game env now s).finished_games ∧
      lookupGame (advance_showing_game env now s).active_games gid = none ∧
      lookupGame (processRecord (advance_showing_game env now s) r).active_games gid
        = some (build_new_game r) := by
  subst hrid
  have hce : current_entry s = some (r.gameId, g0) := by simp [current_entry, hshow, hlook]
  have hleaf1 : ((game_ended env.end_result g0).1).current_node.children = [] :=
    game_ended_leaf _ _ hvalid hleaf
  have hnone := lookupGame_removeGame_self
    (updateGame s.active_games r.gameId (game_ended env.end_result g0).1) r.gameId
    (nodup_keysOf_updateGame _ _ _ hnd)
  have hms : now - s.last_advance > MOVE_SPEED := by
    have hlt : (MOVE_SPEED : Rat) < GIVE_UP_AFTER := by
      norm_num [MOVE_SPEED, GIVE_UP_AFTER]
    linarith
  have hdisj : now - s.last_advance > MOVE_SPEED ∨
      (updateGame s.active_games r.gameId (game_ended env.end_result g0).1).length >
        MAX_BUFFER_GAMES := Or.inl hms
  simp only [advance_showing_game, hce, hstuck, if_pos hdisj, hleaf1, if_pos htime]
  refine ⟨hfin, hnone, ?_⟩
  simp [processRecord, hfin, hnone, lookupGame_updateGame_self]

theorem give_up_forgets_game_witness :
    ("g1" ∉ (advance_showing_game ⟨fun _ => none, fun l => l.headD "", fun _ => false⟩ 31
        ⟨[("g1", ⟨.mk none none [], []⟩)], [], some "g1", 0⟩).finished_games) ∧
      lookupGame (processRecord
          (advance_showing_game ⟨fun _ => none, fun l => l.headD "", fun _ => false⟩ 31
            ⟨[("g1", ⟨.mk none none [], []⟩)], [], some "g1", 0⟩)
          ⟨"g1", [(Player.black, "D4")], ["Q16"]⟩).active_games "g1"
        = some (build_new_game ⟨"g1", [(Player.black, "D4")], ["Q16"]⟩) := by
  have h := give_up_forgets_game
    ⟨fun _ => none, fun l => l.headD "", fun _ => false⟩ 31
    ⟨[("g1", ⟨.mk none none [], []⟩)], [], some "g1", 0⟩ "g1" ⟨.mk none none [], []⟩
    ⟨"g1", [(Player.black, "D4")], ["Q16"]⟩
    (by simp [keysOf]) rfl rfl rfl rfl rfl
    (by norm_num [GIVE_UP_AFTER]) (by simp) rfl
  exact ⟨h.1, h.2.2⟩

/-- The displayed-session pointer invariant: when set, the pointer names a
key present in the active map. -/
def displayed_inv (s : EngineState) : Prop :=
  ∀ gid, s.showing_game = some gid → (lookupGame s.active_games gid).isSome

theorem pick_showing_isSome (env : CuratorEnv) (ag : List (String × Game))
    (hrc : ∀ l : List String, l ≠ [] → env.random_choice l ∈ l)
    (hne : ag ≠ []) : (lookupGame ag (pick_showing env ag)).isSome := by
  rw [lookupGame_isSome_iff]
  unfold pick_showing
  cases hf : ag.find? (fun kg => env.last_node_pass kg.2) with
  | some kg =>
    have hm := List.mem_of_find?_eq_some hf
    exact List.mem_map_of_mem Prod.fst hm
  | none =>
    have hne2 : ag.map Prod.fst ≠ [] := by
      intro hmap
      exact hne (List.map_eq_nil_iff.mp hmap)
    exact hrc _ hne2

/-- C9: the displayed-pointer invariant is preserved by every curator
invocation and by every record processed by the stdout reader; in
particular every eviction path that removes the displayed session also
clears the pointer within the same invocation (the pointer never dangles
afterwards). -/
theorem displayed_pointer_invariant (env : CuratorEnv) (now : Rat) (s : EngineState) (r : Record)
    (hrc : ∀ l : List String, l ≠ [] → env.random_choice l ∈ l)
    (hinv : displayed_inv s) :
    displayed_inv (advance_showing_game env now s) ∧ displayed_inv (processRecord s r) := by
  constructor
  · cases hce : current_entry s with
    | some kg =>
      obtain ⟨gid, g0⟩ := kg
      obtain ⟨hshow, hlook⟩ := current_entry_some s gid g0 hce
      cases hres : (game_ended env.end_result g0).2 with
      | some res =>
        by_cases ht : now - s.last_advance > SHOW_RESULT_TIME
        · simp only [advance_showing_game, hce, hres, if_pos ht]
          intro gid2 h
          cases h
        · simp only [advance_showing_game, hce, hres, if_neg ht]
          intro gid2 h
          have h2 : s.showing_game = some gid2 := h
          rw [hshow] at h2
          injection h2 with h2
          subst h2
          show (lookupGame (updateGame s.active_games gid
            (game_ended env.end_result g0).1) gid).isSome
          rw [lookupGame_updateGame_self]
          rfl
      | none =>
        by_cases hdisj : now - s.last_advance > MOVE_SPEED ∨
            (updateGame s.active_games gid (game_ended env.end_result g0).1).length >
              MAX_BUFFER_GAMES
        · cases hch : ((game_ended env.end_result g0).1).current_node.children with
          | nil =>
            by_cases htg : now - s.last_advance > GIVE_UP_AFTER
            · simp only [advance_showing_game, hce, hres, if_pos hdisj, hch, if_pos htg]
              intro gid2 h
              cases h
            · simp only [advance_showing_game, hce, hres, if_pos hdisj, hch, if_neg htg]
              intro gid2 h
              have h2 : s.showing_game = some gid2 := h
              rw [hshow] at h2
              injection h2 with h2
              subst h2
              show (lookupGame (updateGame s.active_games gid
                (game_ended env.end_result g0).1) gid).isSome
              rw [lookupGame_updateGame_self]
              rfl
          | cons c cs =>
            simp only [advance_showing_game, hce, hres, if_pos hdisj, hch]
            intro gid2 h
            have h2 : s.showing_game = some gid2 := h
            rw [hshow] at h2
            injection h2 with h2
            subst h2
            show (lookupGame (updateGame (updateGame s.active_games gid
              (game_ended env.end_result g0).1) gid
              (Game.redo (game_ended env.end_result g0).1)) gid).isSome
            rw [lookupGame_updateGame_self]
            rfl
        · simp only [advance_showing_game, hce, hres, if_neg hdisj]
          intro gid2 h
          have h2 : s.showing_game = some gid2 := h
          rw [hshow] at h2
          injection h2 with h2
          subst h2
          show (lookupGame (updateGame s.active_games gid
            (game_ended env.end_result g0).1) gid).isSome
          rw [lookupGame_updateGame_self]
          rfl
    | none =>
      cases hag : s.active_games with
      | nil =>
        have hs : advance_showing_game env now s = s := by
          simp only [advance_showing_game, hce, hag]
        rw [hs]
        exact hinv
      | cons kg rest =>
        simp only [advance_showing_game, hce, hag]
        intro gid2 h
        have h2 : some (pick_showing env (kg :: rest)) = some gid2 := h
        injection h2 with h2
        subst h2
        have := pick_showing_isSome env (kg :: rest) hrc (by simp)
        exact this
  · by_cases hfin : r.gameId ∈ s.finished_games
    · simp only [processRecord, if_pos hfin]
      exact hinv
    · cases hl : lookupGame s.active_games r.gameId with
      | some g =>
        simp only [processRecord, if_neg hfin, hl]
        intro gid2 h
        have h2 : s.showing_game = some gid2 := h
        exact lookupGame_isSome_updateGame _ _ _ _ (hinv gid2 h2)
      | none =>
        simp only [processRecord, if_neg hfin, hl]
        intro gid2 h
        have h2 : s.showing_game = some gid2 := h
        exact lookupGame_isSome_updateGame _ _ _ _ (hinv gid2 h2)

theorem displayed_pointer_invariant_witness :
    displayed_inv (⟨[("g1", ⟨.mk none none [], []⟩)], [], some "g1", 0⟩ : EngineState) ∧
      displayed_inv (advance_showing_game
        ⟨fun _ => none, fun l => l.headD "", fun _ => false⟩ 1
        ⟨[("g1", ⟨.mk none none [], []⟩)], [], some "g1", 0⟩) := by
  have hinv : displayed_inv (⟨[("g1", ⟨.mk none none [], []⟩)], [], some "g1", 0⟩ : EngineState) := by
    intro gid h
    injection h with h
    subst h
    rfl
  have h := displayed_pointer_invariant
    ⟨fun _ => none, fun l => l.headD "", fun _ => false⟩ 1
    ⟨[("g1", ⟨.mk none none [], []⟩)], [], some "g1", 0⟩
    ⟨"g2", [], []⟩
    (fun l hl => by
      cases l with
      | nil => exact absurd rfl hl
      | cons a t => exact List.mem_cons_self a t)
    hinv
  exact ⟨hinv, h.1⟩

/-- C6 (amended): a curator invocation never increases the number of
active sessions, and one processed record increases it by at most one; no
invariant bounds the active map by `MAX_BUFFER_GAMES` — the stdout reader
admits every unseen session id unconditionally. -/
theorem occupancy_change_bounds :
    (∀ (env : CuratorEnv) (now : Rat) (s : EngineState),
      (advance_showing_game env now s).active_games.length ≤ s.active_games.length) ∧
    (∀ (s : EngineState) (r : Record),
      (processRecord s r).active_games.length ≤ s.active_games.length + 1) := by
  constructor
  · intro env now s
    cases hce : current_entry s with
    | some kg =>
      obtain ⟨gid, g0⟩ := kg
      obtain ⟨hshow, hlook⟩ := current_entry_some s gid g0 hce
      have hlen1 : (updateGame s.active_games gid (game_ended env.end_result g0).1).length
          = s.active_games.length := updateGame_length_of_lookup _ _ _ _ hlook
      have hlen2 : (updateGame (updateGame s.active_games gid (game_ended env.end_result g0).1)
          gid (Game.redo (game_ended env.end_result g0).1)).length
          = s.active_games.length := by
        rw [updateGame_length_of_lookup _ _ ((game_ended env.end_result g0).1) _
          (lookupGame_updateGame_self _ _ _), hlen1]
      have hlen3 : (removeGame (updateGame s.active_games gid
          (game_ended env.end_result g0).1) gid).length ≤ s.active_games.length := by
        calc (removeGame (updateGame s.active_games gid
            (game_ended env.end_result g0).1) gid).length
            ≤ (updateGame s.active_games gid (game_ended env.end_result g0).1).length :=
              removeGame_length_le _ _
          _ = s.active_games.length := hlen1
      cases hres : (game_ended env.end_result g0).2 with
      | some res =>
        by_cases ht : now - s.last_advance > SHOW_RESULT_TIME
        · simp only [advance_showing_game, hce, hres, if_pos ht]
          exact hlen3
        · simp only [advance_showing_game, hce, hres, if_neg ht]
          exact le_of_eq hlen1
      | none =>
        by_cases hdisj : now - s.last_advance > MOVE_SPEED ∨
            (updateGame s.active_games gid (game_ended env.end_result g0).1).length >
              MAX_BUFFER_GAMES
        · cases hch : ((game_ended env.end_result g0).1).current_node.children with
          | nil =>
            by_cases htg : now - s.last_advance > GIVE_UP_AFTER
            · simp only [advance_showing_game, hce, hres, if_pos hdisj, hch, if_pos htg]
              exact hlen3
            · simp only [advance_showing_game, hce, hres, if_pos hdisj, hch, if_neg htg]
              exact le_of_eq hlen1
          | cons c cs =>
            simp only [advance_showing_game, hce, hres, if_pos hdisj, hch]
            exact le_of_eq hlen2
        · simp only [advance_showing_game, hce, hres, if_neg hdisj]
          exact le_of_eq hlen1
    | none =>
      cases hag : s.active_games with
      | nil =>
        have hs : advance_showing_game env now s = s := by
          simp only [advance_showing_game, hce, hag]
        rw [hs, hag]
      | cons kg rest =>
        simp only [advance_showing_game, hce, hag]
        exact le_rfl
  · intro s r
    by_cases hfin : r.gameId ∈ s.finished_games
    · simp only [processRecord, if_pos hfin]
      omega
    · cases hl : lookupGame s.active_games r.gameId with
      | some g =>
        simp only [processRecord, if_neg hfin, hl]
        have := updateGame_length_of_lookup s.active_games r.gameId g
          ⟨ContributeEngine.setAnalysisAt (sync_branch (record_moves r) g.root).1
            (sync_branch (record_moves r) g.root).2 r.candidates, g.current⟩ hl
        omega
      | none =>
        simp only [processRecord, if_neg hfin, hl]
        exact updateGame_length_le _ _ _

/-- Ten records with ten distinct unseen session ids, delivered to an
empty store. -/
def flood_record (i : Nat) : Record := ⟨"flood" ++ toString i, [], []⟩

/-- The store after the stdout reader processes the ten flood records. -/
def flood_state : EngineState :=
  (List.range 10).foldl (fun s i => processRecord s (flood_record i)) ⟨[], [], none, 0⟩

/-- A concrete curator environment for counterexample evaluation. -/
def env_const : CuratorEnv := ⟨fun _ => none, fun l => l.headD "", fun _ => false⟩

/-- C6 is false as stated: after a sequence of curator invocations
interleaved with record processing (ten records for distinct unseen ids,
then one curator invocation), the active map holds 10 sessions, which
exceeds `MAX_BUFFER_GAMES + 1 = 9` — the buffer admits without bound. -/
theorem occupancy_overflow_counterexample :
    (advance_showing_game env_const 1 flood_state).active_games.length = 10 ∧
      MAX_BUFFER_GAMES + 1 < 10 := by
  constructor
  · rfl
  · decide

/-- The outcome of parsing one stdout line that begins with the
structured-object marker: a structured record carrying a gameId that
parses and processes cleanly, a parsed object without a gameId field, or
a failure raised by `json.loads` or mid-synchronization (bad move
encoding, missing field).  A mid-synchronization failure can fire after
some store mutations already happened — the new-game insertion of line
190 precedes the replay and attachment of lines 191-196 — so the failure
case carries, besides the exception text for the log, the mutation the
interrupted processing had already performed on the store when the
exception reached the handler; it is kept abstract because the raise can
occur between any two mutations, inside game-module code outside the
modelled sources. -/
inductive ParsedLine where
  | record (r : Record)
  | noId
  | failure (mutate : EngineState → EngineState) (e : String)

/-- The observable effect of one structured line on the reader: the state
afterwards, the raw line logged at error level (if any), and whether the
loop continues. -/
structure StepOut where
  state : EngineState
  error_logged_line : Option String
  loop_continues : Bool

/-- The per-line body of `_read_stdout_thread` for a line starting with
the structured-object marker (lines 164-204): the try block catches every
exception raised by parsing or processing, logs it at error level
together with the offending raw line, and falls through to the next loop
iteration from whatever store state the interrupted processing left
behind; a parsed object without a gameId is ignored; a record is
processed into the state. -/
def handle_json_line (s : EngineState) (raw : String) (p : ParsedLine) : StepOut :=
  match p with
  | .failure mutate _ => ⟨mutate s, some raw, true⟩
  | .noId => ⟨s, none, true⟩
  | .record r => ⟨processRecord s r, none, true⟩

/-- The reader loop folded over a sequence of structured lines. -/
def run_reader (s : EngineState) : List (String × ParsedLine) → EngineState
  | [] => s
  | (raw, p) :: rest => run_reader (handle_json_line s raw p).state rest

/-- C8: a structured line whose parsing or synchronization fails is
contained: the error is logged together with the offending raw line, the
loop continues, and that single line is discarded — the reader, run over
any surrounding line sequence, processes the lines before the failing
one, keeps the failing line's already-performed partial store mutation,
and carries on with exactly the remaining lines; the failure never
escapes the line-processing step and never terminates the reader,
whatever partial mutation the interrupted processing performed. -/
theorem malformed_line_contained (s : EngineState) (raw e : String)
    (mutate : EngineState → EngineState)
    (pre post : List (String × ParsedLine)) :
    (handle_json_line s raw (.failure mutate e)).error_logged_line = some raw ∧
    (handle_json_line s raw (.failure mutate e)).loop_continues = true ∧
    run_reader s (pre ++ (raw, .failure mutate e) :: post) =
      run_reader (mutate (run_reader s pre)) post := by
  refine ⟨rfl, rfl, ?_⟩
  induction pre generalizing s with
  | nil => rfl
  | cons hd tl ih =>
    obtain ⟨r2, p2⟩ := hd
    simp only [List.cons_append, run_reader]
    exact ih _

end ContributeEngine
